import Mathlib

/-!
LoRa gateway serial bridge (`examples/loralan-gateway/main-gate.c`).

A shallow embedding of the gateway's serial bridge: the interrupt-fed line
reader, the draining line writer, the event encoders that format reply lines,
the `set` and `add` shell commands and the watchdog re-arm callback.

Conventions.
* Bytes and machine integers are `Nat`/`Int`; casts are explicit `%`.
* Formatted text is a `List Char`; a C string is the text before the first NUL.
* Console output (`printf`, `puts`) and the LCD are not part of the state.
* Writes into fixed-size local arrays are bounds-checked by the model: the
  reader's line buffer reports the first index written outside the array, and
  the `sprintf` targets are compared with the number of bytes `sprintf` stores.
-/

namespace Gate

/-! ## printf conversions -/

/-- Uppercase digit character used by `%X` for a value below 16. -/
def hexDigitUpper (d : Nat) : Char :=
  "0123456789ABCDEF".toList.getD d '?'

/-- Decimal digit character used by `%u` for a value below 10. -/
def decDigit (d : Nat) : Char :=
  "0123456789".toList.getD d '?'

/-- Digits of `v` in the given base, most significant first, no leading zeros
(a single `0` for zero), produced least significant digit first as printf
does. `fuel` bounds the number of digits. -/
def fmt_digits (digit : Nat → Char) (base : Nat) : Nat → Nat → List Char → List Char
  | 0, _, acc => acc
  | fuel + 1, v, acc =>
    if v / base = 0 then digit (v % base) :: acc
    else fmt_digits digit base fuel (v / base) (digit (v % base) :: acc)

/-- Conversion `%X` applied to an `unsigned int` argument (32 bits, at most 8 digits). -/
def fmt_X (v : Nat) : List Char :=
  fmt_digits hexDigitUpper 16 8 (v % 2 ^ 32) []

/-- Conversion `%08X`: `%X` padded on the left with `0` to a minimum width of 8. -/
def fmt_08X (v : Nat) : List Char :=
  List.replicate (8 - (fmt_X v).length) '0' ++ fmt_X v

/-- Conversion `%u` applied to an `unsigned int` argument (32 bits, at most 10 digits). -/
def fmt_u (v : Nat) : List Char :=
  fmt_digits decDigit 10 10 (v % 2 ^ 32) []

/-- Number of bytes `sprintf` stores for a formatted text: its characters and
the terminating NUL. -/
def sprintf_bytes (text : List Char) : Nat :=
  text.length + 1

/-! ## Reading hexadecimal text back (used to state the encoders' contracts) -/

/-- Value of one hexadecimal digit character (either case); `none` otherwise. -/
def hexDigitValue (c : Char) : Option Nat :=
  if '0' ≤ c ∧ c ≤ '9' then some (c.toNat - 48)
  else if 'A' ≤ c ∧ c ≤ 'F' then some (c.toNat - 55)
  else if 'a' ≤ c ∧ c ≤ 'f' then some (c.toNat - 87)
  else none

/-- One step of reading hexadecimal text: shift in the next digit. -/
def hexStep (acc : Option Nat) (c : Char) : Option Nat :=
  match acc, hexDigitValue c with
  | some a, some d => some (a * 16 + d)
  | _, _ => none

/-- Number written by a string of hexadecimal digits, most significant first;
`none` when some character is not a hexadecimal digit. -/
def hexValue (cs : List Char) : Option Nat :=
  cs.foldl hexStep (some 0)

/-- The character is one of `0..9`, `A..F`. -/
def isUpperHexDigit (c : Char) : Bool :=
  ('0' ≤ c && c ≤ '9') || ('A' ≤ c && c ≤ 'F')

/-- Fixed-width rendering of a 32-bit value: eight uppercase hexadecimal
digits, most significant nibble first. -/
def hex8 (v : Nat) : List Char :=
  [28, 24, 20, 16, 12, 8, 4, 0].map (fun s => hexDigitUpper ((v >>> s) % 16))

/-- Fixed-width digits of `v` in the given base: exactly `width` digits, most
significant first, leading zeros kept. -/
def fixedDigits (digit : Nat → Char) (base : Nat) : Nat → Nat → List Char
  | 0, _ => []
  | width + 1, v => fixedDigits digit base width (v / base) ++ [digit (v % base)]

/-! ## Outgoing message queue -/

/-- Modelled from the spec: the type `gc_pending_fifo_t` of pending-fifo.h,
which is not in src/. A FIFO of pre-formatted reply lines, oldest first; its
fixed number of slots is the parameter `cap` of `gc_pending_fifo_push`. -/
structure gc_pending_fifo_t where
  lines : List (List Char)
deriving DecidableEq

/-- Modelled from the spec: `gc_pending_fifo_init` of pending-fifo.c, which is
not in src/: the queue starts empty. -/
def gc_pending_fifo_init : gc_pending_fifo_t :=
  { lines := [] }

/-- Modelled from the spec: `gc_pending_fifo_empty` of pending-fifo.c, which is
not in src/. -/
def gc_pending_fifo_empty (fifo : gc_pending_fifo_t) : Bool :=
  fifo.lines.isEmpty

/-- Modelled from the spec: `gc_pending_fifo_push` of pending-fifo.c, which is
not in src/: the text is copied into the next free slot when the queue is not
full; otherwise the push fails and the message is dropped. The Boolean is the
success indicator. -/
def gc_pending_fifo_push (cap : Nat) (fifo : gc_pending_fifo_t) (str : List Char) :
    gc_pending_fifo_t × Bool :=
  if fifo.lines.length < cap then ({ lines := fifo.lines ++ [str] }, true)
  else (fifo, false)

/-- Modelled from the spec: `gc_pending_fifo_pop` of pending-fifo.c, which is
not in src/: removes the oldest message and hands it to the caller; on an empty
queue nothing is popped. -/
def gc_pending_fifo_pop (fifo : gc_pending_fifo_t) : gc_pending_fifo_t × Option (List Char) :=
  match fifo.lines with
  | [] => (fifo, none)
  | m :: rest => ({ lines := rest }, some m)

/-! ## Event encoders -/

/-- Fields of `ls_gate_node_t` (ls-gate.h) that this file reads or that
`add_cmd` supplies. `node_id` and `app_id` are `uint64_t`, `addr` and `nonce`
32-bit, `node_ch` is the index of the node's channel. -/
structure ls_gate_node_t where
  addr : Nat
  node_id : Nat
  app_id : Nat
  nonce : Nat
  node_ch : Nat
  node_class : Nat
deriving DecidableEq

/-- A fill of a fixed-size local `char` array: the array's size and the number
of bytes the code stores in it, the terminating NUL included. -/
structure LocalStore where
  size : Nat
  stored : Nat
deriving DecidableEq

/-- Bytes stored past the end of the array. -/
def LocalStore.overrun (s : LocalStore) : Nat :=
  s.stored - s.size

/-- Effect of one encoder call: the outgoing queue afterwards and the fills of
the encoder's local arrays, in source order. The text handed to the queue is
the formatted text also when a fill overruns its array. -/
structure Encoded where
  fifo : gc_pending_fifo_t
  stores : List LocalStore
deriving DecidableEq

/-- High word `(unsigned int) (node->node_id >> 32)`. -/
def node_id_hi (node : ls_gate_node_t) : Nat :=
  (node.node_id >>> 32) % 2 ^ 32

/-- Low word `(unsigned int) (node->node_id & 0xFFFFFFFF)`. -/
def node_id_lo (node : ls_gate_node_t) : Nat :=
  (node.node_id &&& 0xFFFFFFFF) % 2 ^ 32

/-- Text formatted by `"%c%08X%08X\n"`. -/
def fmt_tag_id (tag : Char) (node : ls_gate_node_t) : List Char :=
  tag :: (fmt_08X (node_id_hi node) ++ fmt_08X (node_id_lo node) ++ ['\n'])

/-- `node_kicked_cb`: formats the kick line into `char str[18]` and pushes it. -/
def node_kicked_cb (REPLY_KICK : Char) (cap : Nat) (fifo : gc_pending_fifo_t)
    (node : ls_gate_node_t) : Encoded :=
  let str := fmt_tag_id REPLY_KICK node
  { fifo := (gc_pending_fifo_push cap fifo str).1,
    stores := [{ size := 18, stored := sprintf_bytes str }] }

/-- Text formatted by `"%c%08X%08X%u\n"` in `node_joined_cb`. -/
def fmt_tag_id_class (tag : Char) (node : ls_gate_node_t) : List Char :=
  tag :: (fmt_08X (node_id_hi node) ++ fmt_08X (node_id_lo node) ++
    fmt_u node.node_class ++ ['\n'])

/-- `node_joined_cb`: formats the join line into `char str[128]`, pushes it and
returns the application nonce drawn from the radio (`sx1276_random`, here the
argument of the same name). The LCD text goes through `snprintf(buf, 17, ...)`,
which stores at most 17 bytes in `char buf[17]`. -/
def node_joined_cb (REPLY_JOIN : Char) (cap : Nat) (fifo : gc_pending_fifo_t)
    (node : ls_gate_node_t) (sx1276_random : Nat) : Encoded × Nat :=
  let str := fmt_tag_id_class REPLY_JOIN node
  ({ fifo := (gc_pending_fifo_push cap fifo str).1,
     stores := [{ size := 128, stored := sprintf_bytes str }] }, sx1276_random)

/-- `app_data_ack_cb`: formats the acknowledgement line into `char str[18]` and
pushes it; the channel argument is not used. -/
def app_data_ack_cb (REPLY_ACK : Char) (cap : Nat) (fifo : gc_pending_fifo_t)
    (node : ls_gate_node_t) : Encoded :=
  let str := fmt_tag_id REPLY_ACK node
  { fifo := (gc_pending_fifo_push cap fifo str).1,
    stores := [{ size := 18, stored := sprintf_bytes str }] }

/-- `pending_frames_req_cb`: formats the request line into `char str[18]` and
pushes it. -/
def pending_frames_req_cb (REPLY_PENDING_REQ : Char) (cap : Nat) (fifo : gc_pending_fifo_t)
    (node : ls_gate_node_t) : Encoded :=
  let str := fmt_tag_id REPLY_PENDING_REQ node
  { fifo := (gc_pending_fifo_push cap fifo str).1,
    stores := [{ size := 18, stored := sprintf_bytes str }] }

/-- Modelled from the spec: `bytes_to_hex(bytes, len, out, reverse)` of utils.c,
which is not in src/: two hexadecimal characters per input byte (the terminating
NUL is counted by `sprintf_bytes`), the bytes taken in reverse order when
`reverse` is set. -/
def bytes_to_hex (bytes : List Nat) (len : Nat) (reverse : Bool) : List Char :=
  let bs := bytes.take len
  ((if reverse then bs.reverse else bs).map
    (fun b => [hexDigitUpper (b % 256 / 16), hexDigitUpper (b % 16)])).flatten

/-- `app_data_received_cb`: `GC_MAX_REPLY_LEN` (gate-commands.h) is a parameter;
`buf` is the payload and `bufsize` its length. The payload length is clamped to
`sizeof(hex)`, the three hexadecimal fields are produced by `bytes_to_hex` and
the line is formatted into `char str[GC_MAX_REPLY_LEN]`. -/
def app_data_received_cb (GC_MAX_REPLY_LEN : Nat) (REPLY_IND : Char) (cap : Nat)
    (fifo : gc_pending_fifo_t) (node : ls_gate_node_t) (last_rssi : Int)
    (buf : List Nat) (status : Nat) : Encoded :=
  let sizeof_hex := GC_MAX_REPLY_LEN - 19
  let bufsize := if buf.length > sizeof_hex then sizeof_hex else buf.length
  let rssi := (last_rssi % 2 ^ 16).toNat
  let buf_rssi := bytes_to_hex [rssi % 256, rssi / 256] 2 true
  let buf_status := bytes_to_hex [status % 256] 1 true
  let hex := bytes_to_hex buf bufsize false
  let str := REPLY_IND :: (fmt_08X (node_id_hi node) ++ fmt_08X (node_id_lo node) ++
    buf_rssi ++ buf_status ++ hex ++ ['\n'])
  { fifo := (gc_pending_fifo_push cap fifo str).1,
    stores := [{ size := 5, stored := sprintf_bytes buf_rssi },
               { size := 5, stored := sprintf_bytes buf_status },
               { size := sizeof_hex, stored := sprintf_bytes hex },
               { size := GC_MAX_REPLY_LEN, stored := sprintf_bytes str }] }

/-- The sixteen hexadecimal characters of a 64-bit identity as the wire format
documents them: the high 32 bits as eight uppercase digits, then the low 32
bits as eight uppercase digits. -/
def id_digits (id : Nat) : List Char :=
  hex8 (id / 2 ^ 32) ++ hex8 (id % 2 ^ 32)

/-! ## Line writer -/

/-- The terminating NUL of a C string. -/
def NUL : Char := Char.ofNat 0

/-- The characters of a buffer seen as a C string: those before the first NUL
(`strlen` many). -/
def c_str (buf : List Char) : List Char :=
  buf.takeWhile (fun c => c != NUL)

/-- The `while (!gc_pending_fifo_empty(&fifo))` loop of `writer`: each message
popped into `buf` is written to the UART up to its terminating NUL. `out` is
what has been written so far; `none` means the fuel ran out. -/
def writer_loop : Nat → gc_pending_fifo_t → List Char → Option (gc_pending_fifo_t × List Char)
  | 0, _, _ => none
  | fuel + 1, fifo, out =>
    if !gc_pending_fifo_empty fifo then
      match gc_pending_fifo_pop fifo with
      | (fifo', some m) => writer_loop fuel fifo' (out ++ c_str (m ++ [NUL]))
      | (fifo', none) => writer_loop fuel fifo' out
    else some (fifo, out)

/-- State of the egress side: the outgoing queue, the wakeup messages sent to
the writer thread and not yet received, and the bytes written to the UART. -/
structure UartTx where
  fifo : gc_pending_fifo_t
  writer_msgs : Nat
  uart_out : List Char
deriving DecidableEq

/-- Outcome of one pass of the writer's `while (1)` body. -/
inductive WriterStep where
  | blocked
  | out_of_fuel
  | drained (s : UartTx)
deriving DecidableEq

/-- One pass of the body of `writer`: `msg_receive` blocks without a pending
message; otherwise one message is received and the queue is drained. -/
def writer (fuel : Nat) (s : UartTx) : WriterStep :=
  if s.writer_msgs = 0 then .blocked
  else
    match writer_loop fuel s.fifo s.uart_out with
    | none => .out_of_fuel
    | some (fifo, out) =>
      .drained { fifo := fifo, writer_msgs := s.writer_msgs - 1, uart_out := out }

/-- Queue contents after pushing the messages in order, starting from the
initialised queue. -/
def push_all (cap : Nat) (msgs : List (List Char)) : gc_pending_fifo_t :=
  msgs.foldl (fun fifo m => (gc_pending_fifo_push cap fifo m).1) gc_pending_fifo_init

/-! ## Ingress ring buffer and line reader -/

/-- Size of the ring buffer's storage `rx_mem`. -/
def UART_BUFSIZE : Nat := 255

/-- Line terminator `'\r'`. -/
def EOL : Nat := 13

/-- Modelled from the spec: the type `ringbuffer_t` of ringbuffer.h, which is
not in src/: a fixed-capacity FIFO of bytes, oldest first. -/
structure ringbuffer_t where
  bytes : List Nat
  size : Nat
deriving DecidableEq

/-- Modelled from the spec: `ringbuffer_init` of ringbuffer.c, which is not in
src/: an empty buffer over storage of the given size. -/
def ringbuffer_init (size : Nat) : ringbuffer_t :=
  { bytes := [], size := size }

/-- Modelled from the spec: `ringbuffer_add_one` of ringbuffer.c, which is not
in src/: the byte is appended while there is room. The spec leaves the behaviour
on a full buffer open, so it is the parameter `on_full`. -/
def ringbuffer_add_one (on_full : ringbuffer_t → Nat → ringbuffer_t) (rb : ringbuffer_t)
    (c : Nat) : ringbuffer_t :=
  if rb.bytes.length < rb.size then { rb with bytes := rb.bytes ++ [c] }
  else on_full rb c

/-- Modelled from the spec: `ringbuffer_get_one` of ringbuffer.c, which is not
in src/: the oldest byte is removed and returned. The spec gives no value for a
read from an empty buffer, so it is the parameter `on_empty`. -/
def ringbuffer_get_one (on_empty : Nat) (rb : ringbuffer_t) : Nat × ringbuffer_t :=
  match rb.bytes with
  | [] => (on_empty, rb)
  | b :: rest => (b, { rb with bytes := rest })

/-- State of the ingress side: the ring buffer and the wakeup messages sent to
the reader thread and not yet received. -/
structure UartRx where
  rx_buf : ringbuffer_t
  reader_msgs : Nat
deriving DecidableEq

/-- Ingress state set up by `uart_gate_init`. -/
def uart_gate_init : UartRx :=
  { rx_buf := ringbuffer_init UART_BUFSIZE, reader_msgs := 0 }

/-- `rx_cb`: the received byte is added to the ring buffer and, when it is the
terminator, one message is sent to the reader. -/
def rx_cb (on_full : ringbuffer_t → Nat → ringbuffer_t) (s : UartRx) (data : Nat) : UartRx :=
  let rb := ringbuffer_add_one on_full s.rx_buf data
  if data = EOL then { rx_buf := rb, reader_msgs := s.reader_msgs + 1 }
  else { rx_buf := rb, reader_msgs := s.reader_msgs }

/-- Outcome of the reader's `do ... while (c != EOL)` loop. -/
inductive ReaderLoop where
  | out_of_fuel
  | fault (i : Nat)
  | done (rb : ringbuffer_t) (buf : List Nat) (i : Nat)
deriving DecidableEq

/-- The loop `do { c = ringbuffer_get_one(&rx_buf); buf[i++] = c; } while (c != EOL);`
over the line buffer `buf` (its length is the array's size). A store at an
index outside the array ends the run with `fault`. -/
def reader_loop (on_empty : Nat) : Nat → ringbuffer_t → List Nat → Nat → ReaderLoop
  | 0, _, _, _ => .out_of_fuel
  | fuel + 1, rb, buf, i =>
    let (c, rb') := ringbuffer_get_one on_empty rb
    if i < buf.length then
      if c ≠ EOL then reader_loop on_empty fuel rb' (buf.set i c) (i + 1)
      else .done rb' (buf.set i c) (i + 1)
    else .fault i

/-- Outcome of one pass of the reader's `while (1)` body. -/
inductive ReaderStep where
  | blocked
  | out_of_fuel
  | fault (i : Nat)
  | parsed (s : UartRx) (buf : List Nat)
deriving DecidableEq

/-- Initial contents of the reader's line buffer, `char buf[255] = { 0 }`. -/
def reader_buf : List Nat :=
  List.replicate 255 0

/-- One pass of the body of `reader`: `msg_receive` blocks without a pending
message; otherwise one message is received, bytes are moved from the ring
buffer into `buf` up to and including the terminator, `buf[i] = 0` is stored
after it and `gc_parse_command` is called on `buf` (outcome `parsed`). The loop
stores one byte per round and faults at the first index outside the array, so
`buf.length + 1` rounds always suffice. -/
def reader (on_empty : Nat) (s : UartRx) (buf : List Nat) : ReaderStep :=
  if s.reader_msgs = 0 then .blocked
  else
    match reader_loop on_empty (buf.length + 1) s.rx_buf buf 0 with
    | .out_of_fuel => .out_of_fuel
    | .fault i => .fault i
    | .done rb buf' i =>
      if i < buf'.length then
        .parsed { rx_buf := rb, reader_msgs := s.reader_msgs - 1 } (buf'.set i 0)
      else .fault i

/-- The bytes of a buffer seen as a C string: those before the first zero byte. -/
def c_bytes (buf : List Nat) : List Nat :=
  buf.takeWhile (fun b => b != 0)

/-- The string `gc_parse_command` receives, when the pass reaches the call. -/
def ReaderStep.command : ReaderStep → Option (List Nat)
  | .parsed _ buf => some (c_bytes buf)
  | _ => none

/-! ## Watchdog -/

/-- Watchdog prescaler setting. -/
def IWDG_PRESCALER : Nat := 5

/-- Watchdog reload value. -/
def IWDG_RELOAD : Nat := 0x0FFF

/-- `((((IWDG_RELOAD) * (1 << (IWDG_PRESCALER + 2))) / 56000) - 3)` in `int`
arithmetic (no intermediate exceeds 31 bits). -/
def IWDG_TIMEOUT : Int :=
  Int.tdiv ((IWDG_RELOAD : Int) * ((1 <<< (IWDG_PRESCALER + 2) : Nat) : Int)) 56000 - 3

/-- Watchdog-related state: how often `wdg_reload` has been called and the
interval `iwdg_timer` was last armed with by `rtctimers_set`. -/
structure Watchdog where
  reloads : Nat
  iwdg_timer : Option Int
deriving DecidableEq

/-- `iwdg_reset`: reload the watchdog, re-arm the timer. -/
def iwdg_reset (w : Watchdog) : Watchdog :=
  { reloads := w.reloads + 1, iwdg_timer := some IWDG_TIMEOUT }

/-! ## Shell commands -/

/-- C `isspace` in the default locale. -/
def isspace (c : Char) : Bool :=
  c == ' ' || (9 ≤ c.toNat && c.toNat ≤ 13)

/-- C `isdigit`. -/
def isdigit (c : Char) : Bool :=
  '0' ≤ c && c ≤ '9'

/-- `strtol(s, NULL, 10)` with a 32-bit `long`: leading white space, an
optional sign, then decimal digits up to the first other character (0 when
there is none); the result saturates at `LONG_MIN` and `LONG_MAX`. -/
def strtol (s : List Char) : Int :=
  let s := s.dropWhile isspace
  let (neg, s) :=
    match s with
    | '-' :: t => (true, t)
    | '+' :: t => (false, t)
    | _ => (false, s)
  let n : Nat := (s.takeWhile isdigit).foldl (fun a c => a * 10 + (c.toNat - 48)) 0
  let v : Int := if neg then -(n : Int) else (n : Int)
  if v < -2147483648 then -2147483648
  else if v > 2147483647 then 2147483647
  else v

/-- `atoi(s)`, that is `(int) strtol(s, NULL, 10)`. -/
def atoi (s : List Char) : Int :=
  strtol s

/-- The fields of `ls_gate_channel_t` (ls-gate.h) that `ls_set_cmd` writes. -/
structure ls_gate_channel_t where
  dr : Int
  frequency : Nat
deriving DecidableEq

/-- One entry of the `regions` table (ls-regions.h). -/
structure ls_region_t where
  num_channels : Int
  channels : Nat → Nat

/-- The persistent node settings module (`unwds_set_dr`, `unwds_set_region`,
`unwds_set_channel`, `unwds_get_node_settings`), which is not in src/, over a
settings store of type `σ`. -/
structure unwds_settings_api (σ : Type) where
  unwds_set_dr : σ → Int → σ
  unwds_set_region : σ → Int → Bool → σ
  unwds_set_channel : σ → Int → σ
  region_index : σ → Nat
  channel : σ → Nat

/-- The state `ls_set_cmd` works on: `ls.channels[0]` and the node settings. -/
structure GateConfig (σ : Type) where
  channel0 : ls_gate_channel_t
  settings : σ

/-- The frequency `regions[settings.region_index].channels[settings.channel]`. -/
def region_frequency {σ : Type} (api : unwds_settings_api σ) (regions : Nat → ls_region_t)
    (settings : σ) : Nat :=
  (regions (api.region_index settings)).channels (api.channel settings)

/-- `ls_set_cmd`: returns the exit code and the state afterwards.
`LS_UNI_NUM_REGIONS` and the `regions` table (ls-regions.h) are parameters. -/
def ls_set_cmd {σ : Type} (api : unwds_settings_api σ) (LS_UNI_NUM_REGIONS : Int)
    (regions : Nat → ls_region_t) (argc : Int) (argv : List (List Char)) (g : GateConfig σ) :
    Int × GateConfig σ :=
  if argc ≠ 3 then (1, g)
  else
    let key := argv.getD 1 []
    let value := argv.getD 2 []
    if key = "dr".toList then
      let v := strtol value
      if v > 6 then (1, g)
      else
        let settings := api.unwds_set_dr g.settings v
        (0, { channel0 := { dr := v, frequency := region_frequency api regions settings },
              settings := settings })
    else if key = "region".toList then
      let v := strtol value
      if v > LS_UNI_NUM_REGIONS - 1 then (1, g)
      else
        let settings := api.unwds_set_region g.settings v false
        (0, { channel0 := { g.channel0 with
                frequency := region_frequency api regions settings },
              settings := settings })
    else if key = "ch".toList then
      let v := strtol value
      if v > (regions (api.region_index g.settings)).num_channels - 1 then (1, g)
      else
        let settings := api.unwds_set_channel g.settings v
        (0, { channel0 := { g.channel0 with
                frequency := region_frequency api regions settings },
              settings := settings })
    else (1, g)

/-- Modelled from the spec: the device table `ls_gate_devices_t` of ls-gate.h,
which is not in src/: a collection of entries keyed by address. -/
structure ls_gate_devices_t where
  nodes : List ls_gate_node_t
deriving DecidableEq

/-- Modelled from the spec: `ls_devlist_is_in_network` of the device list
module, which is not in src/: membership of the address in the table. -/
def ls_devlist_is_in_network (devices : ls_gate_devices_t) (addr : Nat) : Bool :=
  devices.nodes.any (fun n => n.addr == addr)

/-- The list without its first entry that has the given address. -/
def remove_addr (addr : Nat) : List ls_gate_node_t → List ls_gate_node_t
  | [] => []
  | n :: rest => if n.addr = addr then rest else n :: remove_addr addr rest

/-- Modelled from the spec: `ls_devlist_remove_device` of the device list
module, which is not in src/: removal of the entry with that address. -/
def ls_devlist_remove_device (devices : ls_gate_devices_t) (addr : Nat) : ls_gate_devices_t :=
  { nodes := remove_addr addr devices.nodes }

/-- Modelled from the spec: `ls_devlist_add_by_addr` of the device list module,
which is not in src/: insertion of a new entry with the given address,
identities, nonce and channel while the table has a free slot
(`LS_GATE_MAX_NODES` entries at most); with no free slot nothing is inserted and
the result is `NULL` (`none`). The class of a new entry is 0. -/
def ls_devlist_add_by_addr (LS_GATE_MAX_NODES : Nat) (devices : ls_gate_devices_t)
    (addr node_id app_id nonce ch : Nat) : ls_gate_devices_t × Option ls_gate_node_t :=
  let node : ls_gate_node_t :=
    { addr := addr, node_id := node_id, app_id := app_id, nonce := nonce, node_ch := ch,
      node_class := 0 }
  if devices.nodes.length < LS_GATE_MAX_NODES then
    ({ nodes := devices.nodes ++ [node] }, some node)
  else (devices, none)

/-- `add_cmd`: returns the exit code and the device table afterwards.
`hex_to_bytes` (utils.c, not in src/) is a parameter: `none` when it reports
failure, otherwise the number it stores in the target variable, which is cut to
the variable's width here. -/
def add_cmd (hex_to_bytes : List Char → Bool → Option Nat) (LS_GATE_MAX_NODES : Nat)
    (argc : Int) (argv : List (List Char)) (devices : ls_gate_devices_t) :
    Int × ls_gate_devices_t :=
  if argc ≠ 6 then (-1, devices)
  else
    match hex_to_bytes (argv.getD 1 []) true with
    | none => (-1, devices)
    | some nodeid =>
      match hex_to_bytes (argv.getD 2 []) true with
      | none => (-1, devices)
      | some appid =>
        match hex_to_bytes (argv.getD 3 []) true with
        | none => (-1, devices)
        | some addr =>
          match hex_to_bytes (argv.getD 4 []) true with
          | none => (-1, devices)
          | some dev_nonce =>
            let addr := addr % 2 ^ 32
            let channel := (atoi (argv.getD 5 []) % 256).toNat
            let devices :=
              if ls_devlist_is_in_network devices addr then
                ls_devlist_remove_device devices addr
              else devices
            match ls_devlist_add_by_addr LS_GATE_MAX_NODES devices addr (nodeid % 2 ^ 64)
                (appid % 2 ^ 64) (dev_nonce % 2 ^ 32) channel with
            | (devices, none) => (-1, devices)
            | (devices, some _) => (0, devices)

/-- The table holds at most one entry per address. -/
def unique_addrs (devices : ls_gate_devices_t) : Prop :=
  (devices.nodes.map (fun n => n.addr)).Nodup

instance (devices : ls_gate_devices_t) : Decidable (unique_addrs devices) :=
  by unfold unique_addrs; infer_instance

/-! ## Lemmas on the printf conversions -/

theorem fixedDigits_zero (digit : Nat → Char) (base w : Nat) :
    fixedDigits digit base w 0 = List.replicate w (digit 0) := by
  induction w with
  | zero => rfl
  | succ w ih =>
    simp only [fixedDigits, Nat.zero_div, Nat.zero_mod, ih]
    rw [List.replicate_succ']

theorem fmt_digits_spec (digit : Nat → Char) (base : Nat) (hb : 2 ≤ base) :
    ∀ (fuel v : Nat) (acc : List Char), 0 < fuel → v < base ^ fuel →
      ∃ ds, fmt_digits digit base fuel v acc = ds ++ acc ∧ ds.length ≤ fuel ∧
        List.replicate (fuel - ds.length) (digit 0) ++ ds = fixedDigits digit base fuel v := by
  intro fuel
  induction fuel with
  | zero => intro v acc h; omega
  | succ f ih =>
    intro v acc _ hv
    by_cases hq : v / base = 0
    · refine ⟨[digit (v % base)], ?_, ?_, ?_⟩
      · simp [fmt_digits, hq]
      · simp
      · simp [fixedDigits, hq, fixedDigits_zero]
    · have hf : 0 < f := by
        rcases Nat.eq_zero_or_pos f with h0 | h0
        · subst h0
          simp at hv
          exact absurd (Nat.div_eq_of_lt hv) hq
        · exact h0
      have hv' : v / base < base ^ f := by
        rw [Nat.div_lt_iff_lt_mul (by omega)]
        rw [pow_succ] at hv
        exact hv
      obtain ⟨ds, h1, h2, h3⟩ := ih (v / base) (digit (v % base) :: acc) hf hv'
      refine ⟨ds ++ [digit (v % base)], ?_, ?_, ?_⟩
      · simp [fmt_digits, hq, h1]
      · simp; omega
      · simp only [fixedDigits, ← h3, List.length_append, List.length_singleton]
        have : f + 1 - (ds.length + 1) = f - ds.length := by omega
        rw [this, List.append_assoc]

theorem fmt_08X_eq_hex8 (v : Nat) : fmt_08X v = hex8 (v % 2 ^ 32) := by
  have hlt : v % 2 ^ 32 < 16 ^ 8 := by
    have : (16 : Nat) ^ 8 = 2 ^ 32 := by norm_num
    rw [this]; exact Nat.mod_lt _ (by norm_num)
  obtain ⟨ds, h1, h2, h3⟩ :=
    fmt_digits_spec hexDigitUpper 16 (by norm_num) 8 (v % 2 ^ 32) [] (by norm_num) hlt
  have h0 : hexDigitUpper 0 = '0' := rfl
  rw [h0] at h3
  unfold fmt_08X fmt_X
  rw [h1, List.append_nil, h3]
  generalize v % 2 ^ 32 = w
  simp only [fixedDigits, hex8, List.map, Nat.shiftRight_eq_div_pow, List.nil_append,
    List.cons_append, List.append_assoc]
  simp only [Nat.div_div_eq_div_mul]
  norm_num

theorem hexDigitValue_upper (d : Nat) (hd : d < 16) :
    hexDigitValue (hexDigitUpper d) = some d := by
  interval_cases d <;> rfl

theorem isUpperHexDigit_upper (d : Nat) (hd : d < 16) :
    isUpperHexDigit (hexDigitUpper d) = true := by
  interval_cases d <;> rfl

theorem hexStep_upper (a d : Nat) (hd : d < 16) :
    hexStep (some a) (hexDigitUpper d) = some (a * 16 + d) := by
  simp [hexStep, hexDigitValue_upper d hd]

theorem foldl_hexStep_hex8 (a v : Nat) (hv : v < 2 ^ 32) :
    (hex8 v).foldl hexStep (some a) = some (a * 2 ^ 32 + v) := by
  simp only [hex8, List.map, List.foldl, Nat.shiftRight_eq_div_pow]
  repeat rw [hexStep_upper _ _ (Nat.mod_lt _ (by norm_num))]
  congr 1
  omega

theorem hex8_all_upper (v : Nat) : ∀ c ∈ hex8 v, isUpperHexDigit c = true := by
  intro c hc
  simp only [hex8, List.mem_map] at hc
  obtain ⟨s, _, rfl⟩ := hc
  exact isUpperHexDigit_upper _ (Nat.mod_lt _ (by norm_num))

theorem hex8_length (v : Nat) : (hex8 v).length = 8 := rfl

theorem node_id_hi_eq (node : ls_gate_node_t) (h : node.node_id < 2 ^ 64) :
    node_id_hi node = node.node_id / 2 ^ 32 := by
  unfold node_id_hi
  rw [Nat.shiftRight_eq_div_pow]
  apply Nat.mod_eq_of_lt
  omega

theorem node_id_lo_eq (node : ls_gate_node_t) :
    node_id_lo node = node.node_id % 2 ^ 32 := by
  unfold node_id_lo
  have : (0xFFFFFFFF : Nat) = 2 ^ 32 - 1 := by norm_num
  rw [this, Nat.and_pow_two_sub_one_eq_mod, Nat.mod_mod]

theorem fmt_tag_id_eq (tag : Char) (node : ls_gate_node_t) (h : node.node_id < 2 ^ 64) :
    fmt_tag_id tag node =
      tag :: (hex8 (node.node_id / 2 ^ 32) ++ hex8 (node.node_id % 2 ^ 32) ++ ['\n']) := by
  unfold fmt_tag_id
  rw [fmt_08X_eq_hex8, fmt_08X_eq_hex8, node_id_hi_eq node h, node_id_lo_eq, Nat.mod_mod,
    Nat.mod_eq_of_lt (a := node.node_id / 2 ^ 32) (by omega)]

theorem fmt_tag_id_length (tag : Char) (node : ls_gate_node_t) :
    (fmt_tag_id tag node).length = 18 := by
  unfold fmt_tag_id
  rw [fmt_08X_eq_hex8, fmt_08X_eq_hex8]
  simp [hex8_length]

theorem push_with_room (cap : Nat) (fifo : gc_pending_fifo_t) (str : List Char)
    (h : fifo.lines.length < cap) :
    (gc_pending_fifo_push cap fifo str).1.lines = fifo.lines ++ [str] := by
  simp [gc_pending_fifo_push, h]

/-! ## Event encoders -/

/-- C4: for every 64-bit node identity, `node_kicked_cb`, `app_data_ack_cb` and
`pending_frames_req_cb` each hand exactly one message to the outgoing queue (and
it is appended when the queue has a free slot): the tag, the eight uppercase
hexadecimal digits of the high 32 bits, the eight of the low 32 bits, and a
newline. The message is 18 characters long and its 16 digits read back as the
identity. -/
theorem id_line_format (REPLY_KICK REPLY_ACK REPLY_PENDING_REQ : Char) (cap : Nat)
    (fifo : gc_pending_fifo_t) (node : ls_gate_node_t) (hid : node.node_id < 2 ^ 64) :
    ((node_kicked_cb REPLY_KICK cap fifo node).fifo =
        (gc_pending_fifo_push cap fifo (REPLY_KICK :: (id_digits node.node_id ++ ['\n']))).1 ∧
      (app_data_ack_cb REPLY_ACK cap fifo node).fifo =
        (gc_pending_fifo_push cap fifo (REPLY_ACK :: (id_digits node.node_id ++ ['\n']))).1 ∧
      (pending_frames_req_cb REPLY_PENDING_REQ cap fifo node).fifo =
        (gc_pending_fifo_push cap fifo
          (REPLY_PENDING_REQ :: (id_digits node.node_id ++ ['\n']))).1) ∧
    (fifo.lines.length < cap →
      (node_kicked_cb REPLY_KICK cap fifo node).fifo.lines =
        fifo.lines ++ [REPLY_KICK :: (id_digits node.node_id ++ ['\n'])] ∧
      (app_data_ack_cb REPLY_ACK cap fifo node).fifo.lines =
        fifo.lines ++ [REPLY_ACK :: (id_digits node.node_id ++ ['\n'])] ∧
      (pending_frames_req_cb REPLY_PENDING_REQ cap fifo node).fifo.lines =
        fifo.lines ++ [REPLY_PENDING_REQ :: (id_digits node.node_id ++ ['\n'])]) ∧
    (∀ tag : Char, (tag :: (id_digits node.node_id ++ ['\n'])).length = 18) ∧
    (∀ c ∈ id_digits node.node_id, isUpperHexDigit c = true) ∧
    hexValue (id_digits node.node_id) = some node.node_id := by
  have hk := fmt_tag_id_eq REPLY_KICK node hid
  have ha := fmt_tag_id_eq REPLY_ACK node hid
  have hp := fmt_tag_id_eq REPLY_PENDING_REQ node hid
  have e1 : (node_kicked_cb REPLY_KICK cap fifo node).fifo =
      (gc_pending_fifo_push cap fifo (REPLY_KICK :: (id_digits node.node_id ++ ['\n']))).1 := by
    simp only [node_kicked_cb, hk, id_digits]
  have e2 : (app_data_ack_cb REPLY_ACK cap fifo node).fifo =
      (gc_pending_fifo_push cap fifo (REPLY_ACK :: (id_digits node.node_id ++ ['\n']))).1 := by
    simp only [app_data_ack_cb, ha, id_digits]
  have e3 : (pending_frames_req_cb REPLY_PENDING_REQ cap fifo node).fifo =
      (gc_pending_fifo_push cap fifo
        (REPLY_PENDING_REQ :: (id_digits node.node_id ++ ['\n']))).1 := by
    simp only [pending_frames_req_cb, hp, id_digits]
  refine ⟨⟨e1, e2, e3⟩, ?_, ?_, ?_, ?_⟩
  · intro hroom
    rw [e1, e2, e3]
    exact ⟨push_with_room _ _ _ hroom, push_with_room _ _ _ hroom, push_with_room _ _ _ hroom⟩
  · intro tag
    simp [id_digits, hex8_length]
  · intro c hc
    simp only [id_digits, List.mem_append] at hc
    rcases hc with hc | hc
    · exact hex8_all_upper _ c hc
    · exact hex8_all_upper _ c hc
  · have hhi : node.node_id / 2 ^ 32 < 2 ^ 32 := by omega
    have hlo : node.node_id % 2 ^ 32 < 2 ^ 32 := Nat.mod_lt _ (by norm_num)
    unfold hexValue id_digits
    rw [List.foldl_append, foldl_hexStep_hex8 0 _ hhi, foldl_hexStep_hex8 _ _ hlo]
    congr 1
    omega

/-- Witness of C4 at identity `0x0102030405060708` with an empty queue of 8 slots. -/
theorem id_line_format_witness :
    (0x0102030405060708 : Nat) < 2 ^ 64 ∧ gc_pending_fifo_init.lines.length < 8 ∧
    (node_kicked_cb 'K' 8 gc_pending_fifo_init
        { addr := 1, node_id := 0x0102030405060708, app_id := 0, nonce := 0,
          node_ch := 0, node_class := 1 }).fifo.lines =
      gc_pending_fifo_init.lines ++ ['K' :: (id_digits 0x0102030405060708 ++ ['\n'])] ∧
    hexValue (id_digits 0x0102030405060708) = some 0x0102030405060708 :=
  ⟨by norm_num, by decide,
   ((id_line_format 'K' 'A' 'P' 8 gc_pending_fifo_init
      { addr := 1, node_id := 0x0102030405060708, app_id := 0, nonce := 0,
        node_ch := 0, node_class := 1 } (by norm_num)).2.1 (by decide)).1,
   (id_line_format 'K' 'A' 'P' 8 gc_pending_fifo_init
      { addr := 1, node_id := 0x0102030405060708, app_id := 0, nonce := 0,
        node_ch := 0, node_class := 1 } (by norm_num)).2.2.2.2⟩

/-- C9: the line that `node_kicked_cb`, `app_data_ack_cb` and
`pending_frames_req_cb` format takes 19 bytes with its terminating NUL, one
more than the 18-byte array `str` that receives it, for every node identity. -/
theorem id_line_store_overruns (REPLY_KICK REPLY_ACK REPLY_PENDING_REQ : Char) (cap : Nat)
    (fifo : gc_pending_fifo_t) (node : ls_gate_node_t) :
    (node_kicked_cb REPLY_KICK cap fifo node).stores = [{ size := 18, stored := 19 }] ∧
    (app_data_ack_cb REPLY_ACK cap fifo node).stores = [{ size := 18, stored := 19 }] ∧
    (pending_frames_req_cb REPLY_PENDING_REQ cap fifo node).stores =
      [{ size := 18, stored := 19 }] ∧
    LocalStore.overrun { size := 18, stored := 19 } = 1 := by
  simp [node_kicked_cb, app_data_ack_cb, pending_frames_req_cb, sprintf_bytes,
    fmt_tag_id_length, LocalStore.overrun]

/-- C3, as the spec words it: the join line for identity `0x0102030405060708`
and class 1 is not the tag followed by `0102030405060708001`; the class is
printed by `%u` without padding. -/
theorem node_joined_line_not_padded :
    (node_joined_cb 'J' 8 gc_pending_fifo_init
        { addr := 1, node_id := 0x0102030405060708, app_id := 0, nonce := 0,
          node_ch := 0, node_class := 1 } 0).1.fifo.lines ≠
      ['J' :: "0102030405060708001\n".toList] := by
  decide

/-- C3, amended: for identity `0x0102030405060708` and class 1, `node_joined_cb`
hands to the outgoing queue exactly the tag followed by `01020304050607081` and
a newline (16 hexadecimal digits, then the class as the plain decimal `1`), and
the line is appended when the queue has a free slot. -/
theorem node_joined_line (REPLY_JOIN : Char) (cap : Nat) (fifo : gc_pending_fifo_t)
    (node : ls_gate_node_t) (sx1276_random : Nat)
    (hid : node.node_id = 0x0102030405060708) (hclass : node.node_class = 1) :
    (node_joined_cb REPLY_JOIN cap fifo node sx1276_random).1.fifo =
      (gc_pending_fifo_push cap fifo (REPLY_JOIN :: "01020304050607081\n".toList)).1 ∧
    (fifo.lines.length < cap →
      (node_joined_cb REPLY_JOIN cap fifo node sx1276_random).1.fifo.lines =
        fifo.lines ++ [REPLY_JOIN :: "01020304050607081\n".toList]) := by
  have hstr : fmt_tag_id_class REPLY_JOIN node =
      REPLY_JOIN :: "01020304050607081\n".toList := by
    have h1 : fmt_08X (node_id_hi node) = "01020304".toList := by
      unfold node_id_hi; rw [hid]; decide
    have h2 : fmt_08X (node_id_lo node) = "05060708".toList := by
      unfold node_id_lo; rw [hid]; decide
    have h3 : fmt_u node.node_class = "1".toList := by
      rw [hclass]; decide
    unfold fmt_tag_id_class
    rw [h1, h2, h3]
    rfl
  have e : (node_joined_cb REPLY_JOIN cap fifo node sx1276_random).1.fifo =
      (gc_pending_fifo_push cap fifo (REPLY_JOIN :: "01020304050607081\n".toList)).1 := by
    simp only [node_joined_cb, hstr]
  refine ⟨e, ?_⟩
  intro hroom
  rw [e]
  exact push_with_room _ _ _ hroom

/-- Witness of the amended C3 with tag `J` and an empty queue of 8 slots. -/
theorem node_joined_line_witness :
    (0x0102030405060708 : Nat) = 0x0102030405060708 ∧ (1 : Nat) = 1 ∧
    gc_pending_fifo_init.lines.length < 8 ∧
    (node_joined_cb 'J' 8 gc_pending_fifo_init
        { addr := 1, node_id := 0x0102030405060708, app_id := 0, nonce := 0,
          node_ch := 0, node_class := 1 } 0).1.fifo.lines =
      gc_pending_fifo_init.lines ++ ['J' :: "01020304050607081\n".toList] :=
  ⟨rfl, rfl, by decide,
   (node_joined_line 'J' 8 gc_pending_fifo_init
      { addr := 1, node_id := 0x0102030405060708, app_id := 0, nonce := 0,
        node_ch := 0, node_class := 1 } 0 rfl rfl).2 (by decide)⟩

/-! ## Line reader -/

theorem set_at_length (pre : List Nat) (x c : Nat) (post : List Nat) :
    (pre ++ x :: post).set pre.length c = pre ++ c :: post := by
  induction pre with
  | nil => rfl
  | cons a pre ih => simp [List.set, ih]

theorem reader_loop_line (on_empty : Nat) (l : List Nat) :
    ∀ (fuel size : Nat) (rest pre post : List Nat), EOL ∉ l → l.length < fuel →
      l.length < post.length →
      reader_loop on_empty fuel { bytes := l ++ EOL :: rest, size := size } (pre ++ post)
          pre.length =
        .done { bytes := rest, size := size }
          (pre ++ (l ++ [EOL]) ++ post.drop (l.length + 1)) (pre.length + l.length + 1) := by
  induction l with
  | nil =>
    intro fuel size rest pre post _ hf hp
    obtain ⟨f, rfl⟩ : ∃ f, fuel = f + 1 := ⟨fuel - 1, by simp at hf; omega⟩
    obtain ⟨x, post', rfl⟩ : ∃ x post', post = x :: post' := by
      cases post with
      | nil => simp at hp
      | cons x post' => exact ⟨x, post', rfl⟩
    simp [reader_loop, ringbuffer_get_one, set_at_length]
  | cons b t ih =>
    intro fuel size rest pre post hl hf hp
    obtain ⟨f, rfl⟩ : ∃ f, fuel = f + 1 := ⟨fuel - 1, by simp at hf; omega⟩
    obtain ⟨x, post', rfl⟩ : ∃ x post', post = x :: post' := by
      cases post with
      | nil => simp at hp
      | cons x post' => exact ⟨x, post', rfl⟩
    have hb : b ≠ EOL := fun h => hl (by simp [h])
    have ht : EOL ∉ t := fun h => hl (by simp [h])
    have hrec := ih f size rest (pre ++ [b]) post' ht (by simp at hf; omega)
      (by simp at hp; omega)
    simp only [List.length_append, List.length_singleton, List.append_assoc,
      List.singleton_append] at hrec
    simp only [reader_loop, ringbuffer_get_one, List.cons_append, List.length_append,
      List.length_cons, set_at_length]
    rw [if_pos (by omega), if_pos hb, hrec]
    simp [Nat.add_assoc, Nat.add_comm 1]

theorem rx_cb_feed (on_full : ringbuffer_t → Nat → ringbuffer_t) (l : List Nat) :
    ∀ (s : UartRx), EOL ∉ l → s.rx_buf.bytes.length + l.length ≤ s.rx_buf.size →
      l.foldl (rx_cb on_full) s =
        { rx_buf := { bytes := s.rx_buf.bytes ++ l, size := s.rx_buf.size },
          reader_msgs := s.reader_msgs } := by
  induction l with
  | nil => intro s _ _; simp
  | cons b t ih =>
    intro s hl hs
    have hb : b ≠ EOL := fun h => hl (by simp [h])
    have ht : EOL ∉ t := fun h => hl (by simp [h])
    simp only [List.length_cons] at hs
    have hstep : rx_cb on_full s b =
        { rx_buf := { bytes := s.rx_buf.bytes ++ [b], size := s.rx_buf.size },
          reader_msgs := s.reader_msgs } := by
      have hroom : s.rx_buf.bytes.length < s.rx_buf.size := by omega
      simp only [rx_cb, ringbuffer_add_one, if_pos hroom, if_neg hb]
    rw [List.foldl_cons, hstep, ih _ ht (by simp; omega)]
    simp

theorem rx_cb_line (on_full : ringbuffer_t → Nat → ringbuffer_t) (l : List Nat)
    (hl : EOL ∉ l) (hlen : l.length < UART_BUFSIZE) :
    (l ++ [EOL]).foldl (rx_cb on_full) uart_gate_init =
      { rx_buf := { bytes := l ++ [EOL], size := UART_BUFSIZE }, reader_msgs := 1 } := by
  have hfit : uart_gate_init.rx_buf.bytes.length + l.length ≤ uart_gate_init.rx_buf.size := by
    simp only [uart_gate_init, ringbuffer_init, List.length_nil]
    omega
  rw [List.foldl_append, rx_cb_feed on_full l uart_gate_init hl hfit]
  simp only [List.foldl_cons, List.foldl_nil, rx_cb, ringbuffer_add_one, uart_gate_init,
    ringbuffer_init, List.nil_append, if_pos hlen]
  simp

/-- The reader's loop never runs out of the fuel `reader` gives it. -/
theorem reader_loop_fuel (on_empty : Nat) :
    ∀ (fuel : Nat) (rb : ringbuffer_t) (buf : List Nat) (i : Nat), 0 < fuel →
      buf.length < fuel + i → reader_loop on_empty fuel rb buf i ≠ .out_of_fuel := by
  intro fuel
  induction fuel with
  | zero =>
    intro rb buf i h0 _
    omega
  | succ f ih =>
    intro rb buf i _ h
    simp only [reader_loop]
    split
    · rename_i hi
      split
      · exact ih _ _ _ (by omega) (by simp; omega)
      · simp
    · simp

theorem reader_total (on_empty : Nat) (s : UartRx) (buf : List Nat) :
    reader on_empty s buf ≠ .out_of_fuel := by
  unfold reader
  split
  · simp
  · have h := reader_loop_fuel on_empty (buf.length + 1) s.rx_buf buf 0 (by omega) (by omega)
    split
    · contradiction
    · simp
    · split <;> simp

/-- One pass of the reader over a freshly received line that leaves room for
the final NUL: the buffer then starts with the line, its terminator and a zero
byte. -/
theorem reader_line (on_full : ringbuffer_t → Nat → ringbuffer_t) (on_empty : Nat)
    (s buf : List Nat) (hs : EOL ∉ s) (hlen : s.length + 2 ≤ buf.length)
    (hbuf : buf.length = 255) :
    reader on_empty ((s ++ [EOL]).foldl (rx_cb on_full) uart_gate_init) buf =
      .parsed { rx_buf := { bytes := [], size := UART_BUFSIZE }, reader_msgs := 0 }
        (s ++ [EOL, 0] ++ buf.drop (s.length + 2)) := by
  have hfit : s.length < UART_BUFSIZE := by
    simp only [UART_BUFSIZE]
    omega
  have hloop := reader_loop_line on_empty s (buf.length + 1) UART_BUFSIZE [] [] buf hs
    (by omega) (by omega)
  simp only [List.nil_append, List.length_nil, Nat.zero_add] at hloop
  obtain ⟨x, tl, hx⟩ : ∃ x tl, buf.drop (s.length + 1) = x :: tl := by
    cases h : buf.drop (s.length + 1) with
    | nil =>
      have := congrArg List.length h
      simp at this
      omega
    | cons x tl => exact ⟨x, tl, rfl⟩
  have htl : tl = buf.drop (s.length + 2) := by
    have := congrArg (List.drop 1) hx
    simp only [List.drop_drop, List.drop_succ_cons, List.drop_zero] at this
    rw [← this]
  have hset : (s ++ [EOL] ++ x :: tl).set (s.length + 1) 0 = s ++ [EOL] ++ 0 :: tl := by
    have := set_at_length (s ++ [EOL]) x 0 tl
    simp at this
    simp [this]
  have hlen' : s.length + 1 < (s ++ [EOL] ++ x :: tl).length := by
    simp
  rw [rx_cb_line on_full s hs hfit]
  simp only [reader, hloop, hx]
  rw [if_neg (by decide), if_pos hlen', hset, htl]
  simp

/-- A line of exactly 254 bytes and its terminator fills the whole line buffer,
so the final `buf[i] = 0` is a store at index 255. -/
theorem reader_full_line (on_full : ringbuffer_t → Nat → ringbuffer_t) (on_empty : Nat)
    (s buf : List Nat) (hs : EOL ∉ s) (hlen : s.length = 254) (hbuf : buf.length = 255) :
    reader on_empty ((s ++ [EOL]).foldl (rx_cb on_full) uart_gate_init) buf = .fault 255 := by
  have hfit : s.length < UART_BUFSIZE := by
    simp only [UART_BUFSIZE]
    omega
  have hloop := reader_loop_line on_empty s (buf.length + 1) UART_BUFSIZE [] [] buf hs
    (by omega) (by omega)
  simp only [List.nil_append, List.length_nil, Nat.zero_add] at hloop
  rw [rx_cb_line on_full s hs hfit]
  simp only [reader, hloop]
  rw [if_neg (by decide), if_neg (by simp; omega), hlen]

theorem c_bytes_line (s tl : List Nat) (h0 : 0 ∉ s) :
    c_bytes (s ++ [EOL, 0] ++ tl) = s ++ [EOL] := by
  unfold c_bytes
  rw [List.append_assoc, List.takeWhile_append_of_pos]
  · simp [EOL]
  · intro a ha
    have : a ≠ 0 := fun h => h0 (h ▸ ha)
    simpa using this

theorem reader_buf_length : reader_buf.length = 255 :=
  List.length_replicate 255 0

/-- C1, as the spec words it: after the bytes `a`, `'\r'` the reader does not
hand the string `a` to `gc_parse_command` but `a\r`, the terminator included. -/
theorem reader_keeps_terminator :
    (reader 255 ([97, 13].foldl (rx_cb (fun rb _ => rb)) uart_gate_init) reader_buf).command =
        some [97, 13] ∧
    (reader 255 ([97, 13].foldl (rx_cb (fun rb _ => rb)) uart_gate_init) reader_buf).command ≠
        some [97] := by
  have h := reader_line (fun rb _ => rb) 255 [97] reader_buf (by decide)
    (by rw [reader_buf_length]; decide) reader_buf_length
  have e : ([97] ++ [EOL] : List Nat) = [97, 13] := rfl
  rw [e] at h
  rw [h]
  have hc := c_bytes_line [97] (reader_buf.drop ([97].length + 2)) (by decide)
  simp only [ReaderStep.command, hc]
  decide

/-- C1, amended: for every byte sequence `s` without `'\r'` of at most 253
bytes, after `rx_cb` has been called for each byte of `s` and then for `'\r'`
(starting from the initialised ingress state), one pass of the reader consumes
the wakeup, empties the ring buffer and calls `gc_parse_command` on a buffer
that holds `s`, then `'\r'`, then NUL; read as a C string (for `s` without zero
bytes) the command is `s` followed by the terminator `'\r'`. -/
theorem reader_delivers_line (on_full : ringbuffer_t → Nat → ringbuffer_t) (on_empty : Nat)
    (s buf : List Nat) (hs : EOL ∉ s) (hlen : s.length ≤ 253) (hbuf : buf.length = 255) :
    reader on_empty ((s ++ [EOL]).foldl (rx_cb on_full) uart_gate_init) buf =
      .parsed { rx_buf := { bytes := [], size := UART_BUFSIZE }, reader_msgs := 0 }
        (s ++ [EOL, 0] ++ buf.drop (s.length + 2)) ∧
    (0 ∉ s →
      (reader on_empty ((s ++ [EOL]).foldl (rx_cb on_full) uart_gate_init) buf).command =
        some (s ++ [EOL])) := by
  have h := reader_line on_full on_empty s buf hs (by omega) hbuf
  refine ⟨h, ?_⟩
  intro h0
  rw [h]
  simp only [ReaderStep.command, c_bytes_line s _ h0]

/-- Witness of the amended C1 for the line `set` with the initial line buffer. -/
theorem reader_delivers_line_witness :
    EOL ∉ [115, 101, 116] ∧ [115, 101, 116].length ≤ 253 ∧ reader_buf.length = 255 ∧
    (reader 255 (([115, 101, 116] ++ [EOL]).foldl (rx_cb (fun rb _ => rb)) uart_gate_init)
        reader_buf).command = some ([115, 101, 116] ++ [EOL]) :=
  ⟨by decide, by decide, reader_buf_length,
   (reader_delivers_line (fun rb _ => rb) 255 [115, 101, 116] reader_buf (by decide)
      (by decide) reader_buf_length).2 (by decide)⟩

/-- C10: a line of 254 bytes `a` followed by `'\r'` has 255 bytes and fits in
the ingress queue, yet the reader's pass ends with a store at index 255 of its
255-byte line buffer: the loop fills indices 0 to 254 and the final
`buf[i] = 0` lands one past the end. -/
theorem reader_nul_past_end (on_full : ringbuffer_t → Nat → ringbuffer_t) (on_empty : Nat) :
    (List.replicate 254 97 ++ [EOL]).length = UART_BUFSIZE ∧
    reader on_empty ((List.replicate 254 97 ++ [EOL]).foldl (rx_cb on_full) uart_gate_init)
      reader_buf = .fault 255 := by
  refine ⟨by rw [List.length_append, List.length_replicate]; rfl, ?_⟩
  apply reader_full_line
  · intro h
    have := List.eq_of_mem_replicate h
    simp [EOL] at this
  · exact List.length_replicate 254 97
  · exact reader_buf_length

/-! ## Line writer -/

theorem c_str_terminated (m : List Char) (h : NUL ∉ m) : c_str (m ++ [NUL]) = m := by
  unfold c_str
  rw [List.takeWhile_append_of_pos]
  · simp
  · intro a ha
    have : a ≠ NUL := fun e => h (e ▸ ha)
    simpa using this

theorem writer_loop_drains (lines : List (List Char)) :
    ∀ (fuel : Nat) (out : List Char), lines.length < fuel → (∀ m ∈ lines, NUL ∉ m) →
      writer_loop fuel { lines := lines } out = some ({ lines := [] }, out ++ lines.flatten) := by
  induction lines with
  | nil =>
    intro fuel out hf _
    obtain ⟨f, rfl⟩ : ∃ f, fuel = f + 1 := ⟨fuel - 1, by simp at hf; omega⟩
    simp [writer_loop, gc_pending_fifo_empty]
  | cons m rest ih =>
    intro fuel out hf hn
    obtain ⟨f, rfl⟩ : ∃ f, fuel = f + 1 := ⟨fuel - 1, by simp at hf; omega⟩
    have hm : NUL ∉ m := hn m (by simp)
    have hrest : ∀ m' ∈ rest, NUL ∉ m' := fun m' h => hn m' (by simp [h])
    simp only [writer_loop, gc_pending_fifo_empty, gc_pending_fifo_pop, List.isEmpty_cons,
      Bool.not_false, if_true, c_str_terminated m hm]
    rw [ih f _ (by simp at hf; omega) hrest]
    simp

theorem push_all_from (cap : Nat) (msgs : List (List Char)) :
    ∀ (fifo : gc_pending_fifo_t), fifo.lines.length + msgs.length ≤ cap →
      msgs.foldl (fun fifo m => (gc_pending_fifo_push cap fifo m).1) fifo =
        { lines := fifo.lines ++ msgs } := by
  induction msgs with
  | nil => intro fifo _; simp
  | cons m rest ih =>
    intro fifo h
    simp only [List.length_cons] at h
    have hroom : fifo.lines.length < cap := by omega
    have hstep : (gc_pending_fifo_push cap fifo m).1 = { lines := fifo.lines ++ [m] } := by
      simp only [gc_pending_fifo_push, if_pos hroom]
    rw [List.foldl_cons, hstep, ih _ (by simp; omega)]
    simp

theorem push_all_eq (cap : Nat) (msgs : List (List Char)) (h : msgs.length ≤ cap) :
    push_all cap msgs = { lines := msgs } := by
  unfold push_all
  rw [push_all_from cap msgs gc_pending_fifo_init (by simp [gc_pending_fifo_init]; omega)]
  simp [gc_pending_fifo_init]

/-- C8: for every sequence of at most `cap` NUL-terminated messages pushed to
the outgoing queue, one wakeup of the writer terminates (any fuel above the
number of messages is enough), writes to the UART exactly the concatenation of
the messages in push order, and leaves the queue empty. -/
theorem writer_drains_in_order (cap : Nat) (msgs : List (List Char)) (fuel pending : Nat)
    (out : List Char) (hcap : msgs.length ≤ cap) (hnul : ∀ m ∈ msgs, NUL ∉ m)
    (hfuel : msgs.length < fuel) :
    writer fuel { fifo := push_all cap msgs, writer_msgs := pending + 1, uart_out := out } =
      .drained { fifo := { lines := [] }, writer_msgs := pending,
                 uart_out := out ++ msgs.flatten } := by
  rw [push_all_eq cap msgs hcap]
  simp only [writer, Nat.add_one_ne_zero, if_false, writer_loop_drains msgs fuel out hfuel hnul,
    Nat.add_sub_cancel]

/-- Witness of C8: two lines in a queue of 8 slots. -/
theorem writer_drains_in_order_witness :
    ["K01\n".toList, "A02\n".toList].length ≤ 8 ∧
    (∀ m ∈ ["K01\n".toList, "A02\n".toList], NUL ∉ m) ∧
    ["K01\n".toList, "A02\n".toList].length < 3 ∧
    writer 3 { fifo := push_all 8 ["K01\n".toList, "A02\n".toList], writer_msgs := 0 + 1,
               uart_out := [] } =
      .drained { fifo := { lines := [] }, writer_msgs := 0,
                 uart_out := [] ++ ["K01\n".toList, "A02\n".toList].flatten } :=
  ⟨by decide, by decide, by decide,
   writer_drains_in_order 8 ["K01\n".toList, "A02\n".toList] 3 0 [] (by decide) (by decide)
    (by decide)⟩

/-! ## Watchdog -/

/-- C7: with prescaler 5, reload value `0x0FFF`, time base 56000 and adjustment
3, `IWDG_TIMEOUT` is the value of `reload * 2^(prescaler+2) / 56000 - 3` in
integer arithmetic, namely 6; it is strictly shorter than the expiry period
`reload * 2^(prescaler+2) / 56000` (and `6 * 56000 < 4095 * 128`); every call
of `iwdg_reset` reloads the watchdog once and arms the timer with that interval. -/
theorem iwdg_timeout_value :
    IWDG_PRESCALER = 5 ∧ IWDG_RELOAD = 0x0FFF ∧
    IWDG_TIMEOUT = ((IWDG_RELOAD * 2 ^ (IWDG_PRESCALER + 2) / 56000 : Nat) : Int) - 3 ∧
    IWDG_TIMEOUT = 6 ∧
    IWDG_TIMEOUT < ((IWDG_RELOAD * 2 ^ (IWDG_PRESCALER + 2) / 56000 : Nat) : Int) ∧
    IWDG_TIMEOUT * 56000 < (IWDG_RELOAD : Int) * 2 ^ (IWDG_PRESCALER + 2) ∧
    (6 : Int) * 56000 < 4095 * 128 ∧
    ∀ w : Watchdog, (iwdg_reset w).reloads = w.reloads + 1 ∧
      (iwdg_reset w).iwdg_timer = some IWDG_TIMEOUT := by
  refine ⟨rfl, rfl, by decide, by decide, by decide, by decide, by decide, ?_⟩
  intro w
  exact ⟨rfl, rfl⟩

/-! ## Data-received encoder -/

theorem hex_pairs_length (f : Nat → List Char) (hf : ∀ b, (f b).length = 2) (l : List Nat) :
    ((l.map f).flatten).length = 2 * l.length := by
  induction l with
  | nil => rfl
  | cons b t ih =>
    simp only [List.map_cons, List.flatten_cons, List.length_append, hf, ih, List.length_cons]
    omega

theorem bytes_to_hex_length (bytes : List Nat) (len : Nat) (reverse : Bool) :
    (bytes_to_hex bytes len reverse).length = 2 * min len bytes.length := by
  unfold bytes_to_hex
  simp only []
  rw [hex_pairs_length (fun b => [hexDigitUpper (b % 256 / 16), hexDigitUpper (b % 16)])
    (fun _ => rfl)]
  cases reverse <;> simp

/-- The fills of the local arrays of `app_data_received_cb`, for every input. -/
theorem app_data_received_stores (GC_MAX_REPLY_LEN : Nat) (REPLY_IND : Char) (cap : Nat)
    (fifo : gc_pending_fifo_t) (node : ls_gate_node_t) (last_rssi : Int) (buf : List Nat)
    (status : Nat) :
    (app_data_received_cb GC_MAX_REPLY_LEN REPLY_IND cap fifo node last_rssi buf status).stores =
      [{ size := 5, stored := 5 }, { size := 5, stored := 3 },
       { size := GC_MAX_REPLY_LEN - 19,
         stored := 2 * min buf.length (GC_MAX_REPLY_LEN - 19) + 1 },
       { size := GC_MAX_REPLY_LEN,
         stored := 2 * min buf.length (GC_MAX_REPLY_LEN - 19) + 25 }] := by
  have hmin : min (if buf.length > GC_MAX_REPLY_LEN - 19 then GC_MAX_REPLY_LEN - 19
      else buf.length) buf.length = min buf.length (GC_MAX_REPLY_LEN - 19) := by
    split <;> omega
  simp only [app_data_received_cb, sprintf_bytes, List.length_cons, List.length_append,
    bytes_to_hex_length, fmt_08X_eq_hex8, hex8_length, List.length_nil, hmin,
    List.length_singleton]
  simp
  omega

/-- C2: whenever twice the payload length reaches the size of the hex array
(`GC_MAX_REPLY_LEN - 19`), the clamp of `app_data_received_cb` does not prevent
the overrun: `bytes_to_hex` stores more bytes than the hex array holds and the
formatted line with its NUL is longer than `GC_MAX_REPLY_LEN`. -/
theorem app_data_received_overruns (GC_MAX_REPLY_LEN : Nat) (REPLY_IND : Char) (cap : Nat)
    (fifo : gc_pending_fifo_t) (node : ls_gate_node_t) (last_rssi : Int) (buf : List Nat)
    (status : Nat) (hL : 19 < GC_MAX_REPLY_LEN) (hlen : GC_MAX_REPLY_LEN - 19 ≤ 2 * buf.length) :
    ∃ hex str,
      (app_data_received_cb GC_MAX_REPLY_LEN REPLY_IND cap fifo node last_rssi buf
        status).stores = [{ size := 5, stored := 5 }, { size := 5, stored := 3 }, hex, str] ∧
      hex.size = GC_MAX_REPLY_LEN - 19 ∧ hex.size < hex.stored ∧
      str.size = GC_MAX_REPLY_LEN ∧ str.size < str.stored := by
  refine ⟨_, _, app_data_received_stores _ _ _ _ _ _ _ _, rfl, ?_, rfl, ?_⟩
  · show GC_MAX_REPLY_LEN - 19 < 2 * min buf.length (GC_MAX_REPLY_LEN - 19) + 1
    omega
  · show GC_MAX_REPLY_LEN < 2 * min buf.length (GC_MAX_REPLY_LEN - 19) + 25
    omega

/-- Witness of C2 with `GC_MAX_REPLY_LEN = 64` and a payload of 45 bytes. -/
theorem app_data_received_overruns_witness :
    19 < 64 ∧ 64 - 19 ≤ 2 * (List.replicate 45 0xAB).length ∧
    ∃ hex str,
      (app_data_received_cb 64 'I' 8 gc_pending_fifo_init
        { addr := 1, node_id := 0x0102030405060708, app_id := 0, nonce := 0,
          node_ch := 0, node_class := 1 } (-42) (List.replicate 45 0xAB) 0).stores =
        [{ size := 5, stored := 5 }, { size := 5, stored := 3 }, hex, str] ∧
      hex.size = 64 - 19 ∧ hex.size < hex.stored ∧ str.size = 64 ∧ str.size < str.stored :=
  ⟨by decide, by rw [List.length_replicate]; decide,
   app_data_received_overruns 64 'I' 8 gc_pending_fifo_init
      { addr := 1, node_id := 0x0102030405060708, app_id := 0, nonce := 0,
        node_ch := 0, node_class := 1 } (-42) (List.replicate 45 0xAB) 0 (by decide)
      (by rw [List.length_replicate]; decide)⟩

/-! ## Shell commands -/

/-- The range check that `ls_set_cmd` does make: a data rate above 6 is
rejected with exit code 1 and the state is left as it was. -/
theorem set_dr_rejects_above_six {σ : Type} (api : unwds_settings_api σ)
    (LS_UNI_NUM_REGIONS : Int) (regions : Nat → ls_region_t) (cmd value : List Char)
    (g : GateConfig σ) (hv : 6 < strtol value) :
    ls_set_cmd api LS_UNI_NUM_REGIONS regions 3 [cmd, "dr".toList, value] g = (1, g) := by
  simp [ls_set_cmd, hv]

/-- C5: `set dr -1` is outside the range 0 to 6 and is not rejected: the exit
code is 0, `unwds_set_dr` is applied with -1 and channel 0 gets data rate -1
and a re-read frequency. The check of `ls_set_cmd` only tests for values above
6. -/
theorem set_dr_accepts_negative {σ : Type} (api : unwds_settings_api σ)
    (LS_UNI_NUM_REGIONS : Int) (regions : Nat → ls_region_t) (g : GateConfig σ) :
    strtol "-1".toList = -1 ∧
    ls_set_cmd api LS_UNI_NUM_REGIONS regions 3 ["set".toList, "dr".toList, "-1".toList] g =
      (0, { channel0 :=
              { dr := -1,
                frequency := region_frequency api regions (api.unwds_set_dr g.settings (-1)) },
            settings := api.unwds_set_dr g.settings (-1) }) := by
  have hv : strtol ['-', '1'] = -1 := by decide
  refine ⟨hv, ?_⟩
  simp [ls_set_cmd, hv]

theorem remove_addr_not_mem (addr : Nat) (l : List ls_gate_node_t)
    (h : (l.map (fun n => n.addr)).Nodup) :
    addr ∉ (remove_addr addr l).map (fun n => n.addr) := by
  induction l with
  | nil => simp [remove_addr]
  | cons n rest ih =>
    simp only [List.map_cons, List.nodup_cons] at h
    by_cases hn : n.addr = addr
    · simp only [remove_addr, if_pos hn]
      rw [← hn]
      exact h.1
    · simp only [remove_addr, if_neg hn, List.map_cons, List.mem_cons, not_or]
      exact ⟨fun e => hn e.symm, ih h.2⟩

theorem remove_addr_subset (addr : Nat) (l : List ls_gate_node_t) :
    ∀ n ∈ remove_addr addr l, n ∈ l := by
  induction l with
  | nil => simp [remove_addr]
  | cons m rest ih =>
    intro n hn
    by_cases hm : m.addr = addr
    · simp only [remove_addr, if_pos hm] at hn
      exact List.mem_cons_of_mem _ hn
    · simp only [remove_addr, if_neg hm, List.mem_cons] at hn
      rcases hn with rfl | hn
      · exact List.mem_cons_self _ _
      · exact List.mem_cons_of_mem _ (ih n hn)

theorem remove_addr_nodup (addr : Nat) (l : List ls_gate_node_t)
    (h : (l.map (fun n => n.addr)).Nodup) :
    ((remove_addr addr l).map (fun n => n.addr)).Nodup := by
  induction l with
  | nil => simp [remove_addr]
  | cons n rest ih =>
    simp only [List.map_cons, List.nodup_cons] at h
    by_cases hn : n.addr = addr
    · simp only [remove_addr, if_pos hn]
      exact h.2
    · simp only [remove_addr, if_neg hn, List.map_cons, List.nodup_cons]
      refine ⟨?_, ih h.2⟩
      intro hmem
      obtain ⟨m, hm, hma⟩ := List.mem_map.1 hmem
      exact h.1 (List.mem_map.2 ⟨m, remove_addr_subset addr rest m hm, hma⟩)

theorem not_in_network (devices : ls_gate_devices_t) (addr : Nat)
    (h : ls_devlist_is_in_network devices addr = false) :
    addr ∉ devices.nodes.map (fun n => n.addr) := by
  intro hmem
  obtain ⟨m, hm, hma⟩ := List.mem_map.1 hmem
  have : ls_devlist_is_in_network devices addr = true := by
    simp only [ls_devlist_is_in_network, List.any_eq_true]
    exact ⟨m, hm, by simp [hma]⟩
  rw [h] at this
  exact Bool.noConfusion this

/-- The table `add_cmd` inserts into: the stale entry, if any, is gone, the
addresses are unique and the new address is free. -/
theorem kick_previous (devices : ls_gate_devices_t) (addr : Nat) (h : unique_addrs devices) :
    unique_addrs (if ls_devlist_is_in_network devices addr then
        ls_devlist_remove_device devices addr else devices) ∧
    ls_devlist_is_in_network (if ls_devlist_is_in_network devices addr then
        ls_devlist_remove_device devices addr else devices) addr = false := by
  cases hin : ls_devlist_is_in_network devices addr with
  | false =>
    simp only [Bool.false_eq_true, if_false]
    exact ⟨h, hin⟩
  | true =>
    simp only [if_true]
    refine ⟨remove_addr_nodup addr _ h, ?_⟩
    have hnot := remove_addr_not_mem addr _ h
    cases hin2 : ls_devlist_is_in_network (ls_devlist_remove_device devices addr) addr with
    | false => rfl
    | true =>
      exfalso
      simp only [ls_devlist_is_in_network, ls_devlist_remove_device, List.any_eq_true] at hin2
      obtain ⟨m, hm, hma⟩ := hin2
      exact hnot (List.mem_map.2 ⟨m, hm, by simpa using hma⟩)

theorem add_by_addr_unique (LS_GATE_MAX_NODES : Nat) (devices : ls_gate_devices_t)
    (addr node_id app_id nonce ch : Nat) (h : unique_addrs devices)
    (hfree : ls_devlist_is_in_network devices addr = false) :
    unique_addrs
      (ls_devlist_add_by_addr LS_GATE_MAX_NODES devices addr node_id app_id nonce ch).1 := by
  unfold ls_devlist_add_by_addr
  simp only []
  split
  · have hnot := not_in_network devices addr hfree
    simp only [unique_addrs, List.map_append, List.map_cons, List.map_nil]
    rw [List.nodup_append]
    refine ⟨h, by simp, ?_⟩
    intro a ha hb
    simp only [List.mem_singleton] at hb
    exact hnot (hb ▸ ha)
  · exact h

theorem add_cmd_table (hex_to_bytes : List Char → Bool → Option Nat) (LS_GATE_MAX_NODES : Nat)
    (argv : List (List Char)) (devices : ls_gate_devices_t) (nodeid appid addr nonce : Nat)
    (h1 : hex_to_bytes (argv.getD 1 []) true = some nodeid)
    (h2 : hex_to_bytes (argv.getD 2 []) true = some appid)
    (h3 : hex_to_bytes (argv.getD 3 []) true = some addr)
    (h4 : hex_to_bytes (argv.getD 4 []) true = some nonce) :
    (add_cmd hex_to_bytes LS_GATE_MAX_NODES 6 argv devices).2 =
      (ls_devlist_add_by_addr LS_GATE_MAX_NODES
        (if ls_devlist_is_in_network devices (addr % 2 ^ 32) then
          ls_devlist_remove_device devices (addr % 2 ^ 32) else devices)
        (addr % 2 ^ 32) (nodeid % 2 ^ 64) (appid % 2 ^ 64) (nonce % 2 ^ 32)
        ((atoi (argv.getD 5 []) % 256).toNat)).1 := by
  simp only [add_cmd, h1, h2, h3, h4, ne_eq, not_true_eq_false, if_false]
  split <;> simp_all

theorem add_cmd_early (hex_to_bytes : List Char → Bool → Option Nat) (LS_GATE_MAX_NODES : Nat)
    (argv : List (List Char)) (devices : ls_gate_devices_t)
    (h : hex_to_bytes (argv.getD 1 []) true = none ∨ hex_to_bytes (argv.getD 2 []) true = none ∨
      hex_to_bytes (argv.getD 3 []) true = none ∨ hex_to_bytes (argv.getD 4 []) true = none) :
    (add_cmd hex_to_bytes LS_GATE_MAX_NODES 6 argv devices).2 = devices := by
  simp only [add_cmd, ne_eq, not_true_eq_false, if_false]
  cases h1 : hex_to_bytes (argv.getD 1 []) true with
  | none => rfl
  | some nodeid =>
    cases h2 : hex_to_bytes (argv.getD 2 []) true with
    | none => rfl
    | some appid =>
      cases h3 : hex_to_bytes (argv.getD 3 []) true with
      | none => rfl
      | some addr =>
        cases h4 : hex_to_bytes (argv.getD 4 []) true with
        | none => rfl
        | some nonce =>
          rw [h1, h2, h3, h4] at h
          rcases h with h | h | h | h <;> exact Option.noConfusion h

theorem add_cmd_unique (hex_to_bytes : List Char → Bool → Option Nat) (LS_GATE_MAX_NODES : Nat)
    (argc : Int) (argv : List (List Char)) (devices : ls_gate_devices_t)
    (huniq : unique_addrs devices) :
    unique_addrs (add_cmd hex_to_bytes LS_GATE_MAX_NODES argc argv devices).2 := by
  by_cases hargc : argc = 6
  · subst hargc
    cases h1 : hex_to_bytes (argv.getD 1 []) true with
    | none => rw [add_cmd_early _ _ _ _ (Or.inl h1)]; exact huniq
    | some nodeid =>
      cases h2 : hex_to_bytes (argv.getD 2 []) true with
      | none => rw [add_cmd_early _ _ _ _ (Or.inr (Or.inl h2))]; exact huniq
      | some appid =>
        cases h3 : hex_to_bytes (argv.getD 3 []) true with
        | none => rw [add_cmd_early _ _ _ _ (Or.inr (Or.inr (Or.inl h3)))]; exact huniq
        | some addr =>
          cases h4 : hex_to_bytes (argv.getD 4 []) true with
          | none => rw [add_cmd_early _ _ _ _ (Or.inr (Or.inr (Or.inr h4)))]; exact huniq
          | some nonce =>
            rw [add_cmd_table hex_to_bytes LS_GATE_MAX_NODES argv devices nodeid appid addr
              nonce h1 h2 h3 h4]
            have hk := kick_previous devices (addr % 2 ^ 32) huniq
            exact add_by_addr_unique _ _ _ _ _ _ _ hk.1 hk.2
  · simp only [add_cmd, ne_eq, hargc, not_false_eq_true, if_true]
    exact huniq

/-- C6: for every device table with at most one entry per address, the table
after `add_cmd` again has at most one entry per address; and for a well-formed
command for address `a` the new entry is inserted into the table from which the
stale entry for `a`, if there was one, has been removed (it no longer contains
`a`), so every entry of the final table with address `a` is the new one. -/
theorem add_cmd_replaces_stale_entry (hex_to_bytes : List Char → Bool → Option Nat)
    (LS_GATE_MAX_NODES : Nat) (argc : Int) (argv : List (List Char))
    (devices : ls_gate_devices_t) (huniq : unique_addrs devices) :
    unique_addrs (add_cmd hex_to_bytes LS_GATE_MAX_NODES argc argv devices).2 ∧
    ∀ nodeid appid addr nonce : Nat, argc = 6 →
      hex_to_bytes (argv.getD 1 []) true = some nodeid →
      hex_to_bytes (argv.getD 2 []) true = some appid →
      hex_to_bytes (argv.getD 3 []) true = some addr →
      hex_to_bytes (argv.getD 4 []) true = some nonce →
      ls_devlist_is_in_network
        (if ls_devlist_is_in_network devices (addr % 2 ^ 32) then
          ls_devlist_remove_device devices (addr % 2 ^ 32) else devices)
        (addr % 2 ^ 32) = false ∧
      (add_cmd hex_to_bytes LS_GATE_MAX_NODES argc argv devices).2 =
        (ls_devlist_add_by_addr LS_GATE_MAX_NODES
          (if ls_devlist_is_in_network devices (addr % 2 ^ 32) then
            ls_devlist_remove_device devices (addr % 2 ^ 32) else devices)
          (addr % 2 ^ 32) (nodeid % 2 ^ 64) (appid % 2 ^ 64) (nonce % 2 ^ 32)
          ((atoi (argv.getD 5 []) % 256).toNat)).1 ∧
      ∀ e ∈ (add_cmd hex_to_bytes LS_GATE_MAX_NODES argc argv devices).2.nodes,
        e.addr = addr % 2 ^ 32 →
        e = { addr := addr % 2 ^ 32, node_id := nodeid % 2 ^ 64, app_id := appid % 2 ^ 64,
              nonce := nonce % 2 ^ 32, node_ch := (atoi (argv.getD 5 []) % 256).toNat,
              node_class := 0 } := by
  refine ⟨add_cmd_unique hex_to_bytes LS_GATE_MAX_NODES argc argv devices huniq, ?_⟩
  intro nodeid appid addr nonce hargc h1 h2 h3 h4
  subst hargc
  have hk := kick_previous devices (addr % 2 ^ 32) huniq
  have htab := add_cmd_table hex_to_bytes LS_GATE_MAX_NODES argv devices nodeid appid addr
    nonce h1 h2 h3 h4
  refine ⟨hk.2, htab, ?_⟩
  intro e he hea
  rw [htab] at he
  have hnot := not_in_network _ _ hk.2
  generalize (if ls_devlist_is_in_network devices (addr % 2 ^ 32) then
    ls_devlist_remove_device devices (addr % 2 ^ 32) else devices) = kicked at he hnot
  by_cases hroom : kicked.nodes.length < LS_GATE_MAX_NODES
  · simp only [ls_devlist_add_by_addr, if_pos hroom, List.mem_append,
      List.mem_singleton] at he
    rcases he with he | he
    · exact absurd (List.mem_map.2 ⟨e, he, hea⟩) hnot
    · exact he
  · simp only [ls_devlist_add_by_addr, if_neg hroom] at he
    exact absurd (List.mem_map.2 ⟨e, he, hea⟩) hnot

/-- Witness of C6: re-adding address `0x10` to a table that already holds it
leaves one entry for that address, the new one. -/
theorem add_cmd_replaces_stale_entry_witness :
    unique_addrs
      { nodes := [{ addr := 16, node_id := 1, app_id := 2, nonce := 3, node_ch := 0,
                    node_class := 0 }] } ∧
    unique_addrs
      (add_cmd (fun s _ => hexValue s) 4 6
        ["add".toList, "0102030405060708".toList, "00000000000000AA".toList,
         "00000010".toList, "00000001".toList, "0".toList]
        { nodes := [{ addr := 16, node_id := 1, app_id := 2, nonce := 3, node_ch := 0,
                      node_class := 0 }] }).2 ∧
    ls_devlist_is_in_network
      (if ls_devlist_is_in_network
          { nodes := [{ addr := 16, node_id := 1, app_id := 2, nonce := 3, node_ch := 0,
                        node_class := 0 }] } (16 % 2 ^ 32) then
        ls_devlist_remove_device
          { nodes := [{ addr := 16, node_id := 1, app_id := 2, nonce := 3, node_ch := 0,
                        node_class := 0 }] } (16 % 2 ^ 32)
       else
        { nodes := [{ addr := 16, node_id := 1, app_id := 2, nonce := 3, node_ch := 0,
                      node_class := 0 }] }) (16 % 2 ^ 32) = false :=
  ⟨by decide,
   (add_cmd_replaces_stale_entry (fun s _ => hexValue s) 4 6
      ["add".toList, "0102030405060708".toList, "00000000000000AA".toList,
       "00000010".toList, "00000001".toList, "0".toList]
      { nodes := [{ addr := 16, node_id := 1, app_id := 2, nonce := 3, node_ch := 0,
                    node_class := 0 }] } (by decide)).1,
   ((add_cmd_replaces_stale_entry (fun s _ => hexValue s) 4 6
      ["add".toList, "0102030405060708".toList, "00000000000000AA".toList,
       "00000010".toList, "00000001".toList, "0".toList]
      { nodes := [{ addr := 16, node_id := 1, app_id := 2, nonce := 3, node_ch := 0,
                    node_class := 0 }] } (by decide)).2
      0x0102030405060708 0xAA 16 1 rfl (by decide) (by decide) (by decide) (by decide)).1⟩

end Gate
